import Mathlib

/-!
Verification development for the garmin_leaderboard repository
(`src/leaderboard.py`).

The program maintains a wide-format daily snapshot table (`lb_df`, one row
per `(date, metric)` with one column per person), extends it day by day
from the Garmin leaderboard service (`Leaderboard.update_data`), and
reshapes it into one cumulative long-format file per metric
(`Leaderboard.save_gapminder`).

Shallow embedding conventions:
* calendar dates are natural numbers (consecutive days map to consecutive
  naturals; the `YYYYMMDD` day string of a date is order-isomorphic to the
  date itself, so it is modelled by the same number);
* the calendar year of a date is an arbitrary function `yr : Nat → Nat`
  supplied to the aggregation step;
* a pandas cell that may be NaN is an `Option Int`; an absent person
  column on a row is an absent key in an association list;
* Python exceptions are modelled with `Except String`;
* the pandas frame built by `pd.DataFrame()` with no columns is recorded
  by the flag `hasCols := false` (its `set_index` raises `KeyError`).
-/

deriving instance DecidableEq for Except

namespace GarminLB

/-- One entry of a leaderboard service response: a numeric value together
with the reported full person name (`entry["value"]`,
`entry["userInfo"]["fullname"]`). -/
structure Entry where
  value : Int
  fullname : String
deriving DecidableEq

/-- A service response, reduced to the part the program reads:
`leaderboard["allMetrics"]["metricsMap"]`, a mapping from metric-map key
to a list of entries. -/
structure Response where
  metricsMap : List (String × List Entry)
deriving DecidableEq

/-- The remote service as seen by the Collector: `get_leaderboard_activity`
(keyed by date and `actTypeId`) and `get_leaderboard_wellness` (keyed by
date).  A failing call is an `Except.error`. -/
structure Api where
  activity : Nat → Nat → Except String Response
  wellness : Nat → Except String Response

/-- One wide snapshot row: the dict built by `get_steps_for_date` /
`get_distances_for_date` (`{'date': ..., 'metric': ..., fullname: value}`).
Person columns are an association list; an absent key is an absent value
(NaN), not zero. -/
structure Row where
  date : Nat
  metric : String
  values : List (String × Int)
deriving DecidableEq

/-- Assignment `result[fullname] = value` on a Python dict: replace the
value at an existing key in place, otherwise append the new key at the
end. -/
def dictInsert (l : List (String × Int)) (k : String) (v : Int) : List (String × Int) :=
  if l.any (fun e => e.1 == k) then
    l.map (fun e => if e.1 == k then (k, v) else e)
  else
    l ++ [(k, v)]

/-- Fold a response's entry list into a person dict, exactly as the
`for entry in ...` loops do. -/
def entriesToDict (es : List Entry) : List (String × Int) :=
  es.foldl (fun acc e => dictInsert acc e.fullname e.value) []

/-- Lookup of a key in a `metricsMap` (the Python `in` test / indexing on
the response dict). -/
def lookupMap (mm : List (String × List Entry)) (k : String) : Option (List Entry) :=
  (mm.find? (fun e => e.1 == k)).map (fun e => e.2)

/-- `self.activity_types`: the fixed insertion-ordered dict
`{'Cycling': 2, 'Swimming': 26, 'Walking': 9, 'Running': 1}`. -/
def activity_types : List (String × Nat) :=
  [("Cycling", 2), ("Swimming", 26), ("Walking", 9), ("Running", 1)]

/-- `Leaderboard.get_steps_for_date`: one wellness call; indexing
`metricsMap["WELLNESS_TOTAL_STEPS"]` raises when the key is absent. -/
def get_steps_for_date (api : Api) (d : Nat) : Except String Row := do
  let lb ← api.wellness d
  match lookupMap lb.metricsMap ("WELLNESS_TOTAL_STEPS") with
  | some es => .ok ⟨d, "Steps", entriesToDict es⟩
  | none => .error ("KeyError")

/-- The `for name, actTypeId in self.activity_types.items()` loop of
`get_distances_for_date`, over an arbitrary tail of the activity list:
fetch, then append a row only when `ACTIVITY_TOTAL_DISTANCE` is present
in the response. -/
def get_distances_aux (api : Api) (d : Nat) : List (String × Nat) → Except String (List Row)
  | [] => .ok []
  | (name, tid) :: rest => do
      let lb ← api.activity d tid
      let rows ← get_distances_aux api d rest
      match lookupMap lb.metricsMap ("ACTIVITY_TOTAL_DISTANCE") with
      | some es => .ok (⟨d, name, entriesToDict es⟩ :: rows)
      | none => .ok rows

/-- `Leaderboard.get_distances_for_date`. -/
def get_distances_for_date (api : Api) (d : Nat) : Except String (List Row) :=
  get_distances_aux api d activity_types

/-- The body of one date iteration of `update_data`: activity rows first,
then `distances.append(steps)`.  Either every metric row for the date is
produced or the whole day fails. -/
def fetchDay (api : Api) (d : Nat) : Except String (List Row) := do
  let dist ← get_distances_for_date api d
  let steps ← get_steps_for_date api d
  .ok (dist ++ [steps])

/-- In-memory Collector state: `lb_df` as a row list, whether the frame
has columns (false only for the fresh `pd.DataFrame()` of a missing
file), and `next_date`. -/
structure LB where
  rows : List Row
  hasCols : Bool
  nextDate : Nat
deriving DecidableEq

/-- `self.lb_df['date'].max()` (on the nonempty frames the program loads). -/
def maxDate (rows : List Row) : Nat :=
  rows.foldl (fun m r => max m r.date) 0

/-- `Leaderboard.load_data`: read the file if it exists and resume at
`max date + 1 day`, else start from the configured start date with an
empty, columnless frame. -/
def load_data (file : Option (List Row)) (startDate : Nat) : LB :=
  match file with
  | some rows => ⟨rows, true, maxDate rows + 1⟩
  | none => ⟨[], false, startDate⟩

/-- `pd.date_range(start=a, end=b)`: the dates `a, a+1, ..., b`, empty
when `a > b`. -/
def date_range (start stop : Nat) : List Nat :=
  List.range' start (stop + 1 - start)

/-- The `for date in pd.date_range(...)` loop of `update_data`: each
successful day is concatenated onto `self.lb_df`; the first failing day
aborts the loop, leaving the rows accumulated so far. -/
def runLoop (api : Api) (rows : List Row) : List Nat → List Row × Option String
  | [] => (rows, none)
  | d :: rest =>
      match fetchDay api d with
      | .error e => (rows, some e)
      | .ok dayRows => runLoop api (rows ++ dayRows) rest

/-- Outcome of one `update_data` call: whether it returned normally, the
final in-memory `lb_df` rows, and the content written to the snapshot
file by `to_csv` (`none` when the run raised before reaching it). -/
structure RunResult where
  ok : Bool
  memRows : List Row
  persisted : Option (List Row)
deriving DecidableEq

/-- `Leaderboard.update_data` for a given current date `today`: loop over
`[next_date, yesterday]`; a fetch failure propagates (nothing persisted);
otherwise `set_index('date')` raises `KeyError` on an empty columnless
frame, else the full row set is written back with `to_csv`. -/
def update_data (api : Api) (today : Nat) (st : LB) : RunResult :=
  let res := runLoop api st.rows (date_range st.nextDate (today - 1))
  match res.2 with
  | some _ => ⟨false, res.1, none⟩
  | none =>
      if res.1.isEmpty && !st.hasCols then ⟨false, res.1, none⟩
      else ⟨true, res.1, some res.1⟩

/-! ## Aggregation / reshape (`Leaderboard.save_gapminder`) -/

/-- Value of person column `p` on a wide row, `none` when the cell is
absent (NaN). -/
def cellValue (r : Row) (p : String) : Option Int :=
  (r.values.find? (fun e => e.1 == p)).map (fun e => e.2)

/-- Order-preserving first-occurrence deduplication (the behaviour of a
pandas frame's column set and of `Series.unique()`). -/
def uniqueFirstAux [DecidableEq α] (seen : List α) : List α → List α
  | [] => []
  | x :: xs => if x ∈ seen then uniqueFirstAux seen xs else x :: uniqueFirstAux (x :: seen) xs

/-- First-occurrence deduplication of a list. -/
def uniqueFirst [DecidableEq α] (l : List α) : List α :=
  uniqueFirstAux [] l

/-- `df = df[df['date'].dt.year == year]`: keep the target year's rows. -/
def yearFiltered (rows : List Row) (yr : Nat → Nat) (year : Nat) : List Row :=
  rows.filter (fun r => yr r.date == year)

/-- The person columns of the wide frame (all columns except `date` and
`metric`): every person name appearing in any row, first appearance
first.  These are the `value_vars` of the melt. -/
def personCols (rows : List Row) : List String :=
  uniqueFirst (rows.flatMap (fun r => r.values.map (fun e => e.1)))

/-- The metric columns produced by the unstack: the metrics occurring in
the year-filtered rows. -/
def metricCols (f : List Row) : List String :=
  uniqueFirst (f.map (fun r => r.metric))

/-- The dates occurring in the year-filtered rows. -/
def pivotDates (f : List Row) : List Nat :=
  uniqueFirst (f.map (fun r => r.date))

/-- The cell of the pivoted frame at `(person, date, metric)` after
`fillna(0)`: the person's value on the `(date, metric)` wide row when
present, `0` when the cell or the whole row is missing. -/
def pivotVal (f : List Row) (p : String) (d : Nat) (m : String) : Int :=
  match f.find? (fun r => r.date == d && r.metric == m) with
  | some r => (cellValue r p).getD 0
  | none => 0

/-- One index entry of the pivoted frame: a `(Person, date)` pair (its
metric values are read back through `pivotVal`). -/
structure PRow where
  person : String
  date : Nat
deriving DecidableEq

/-- The index of the pivoted frame: every person column paired with every
in-year date. -/
def pivotRows (rows : List Row) (yr : Nat → Nat) (year : Nat) : List PRow :=
  (personCols rows).flatMap
    (fun p => (pivotDates (yearFiltered rows yr year)).map (fun d => ⟨p, d⟩))

/-- Codepoint-lexicographic strict comparison of character lists (the
string order Python sorts by). -/
def charsLt : List Char → List Char → Bool
  | [], [] => false
  | [], _ :: _ => true
  | _ :: _, [] => false
  | a :: as, b :: bs => if a < b then true else if b < a then false else charsLt as bs

/-- Codepoint-lexicographic strict comparison of strings. -/
def strLt (a b : String) : Bool :=
  charsLt a.data b.data

/-- Comparison used by `df.sort_values(by=['Person','day'])`
(lexicographic on full person name, then day). -/
def lexLe (a b : PRow) : Bool :=
  strLt a.person b.person || (a.person == b.person && decide (a.date ≤ b.date))

/-- Comparison used by `df.sort_values(by='day')`. -/
def dayLe (a b : PRow) : Bool :=
  decide (a.date ≤ b.date)

/-- Insert into a sorted list (insertion-sort step). -/
def insertBy (le : α → α → Bool) (a : α) : List α → List α
  | [] => [a]
  | b :: l => if le a b then a :: b :: l else b :: insertBy le a l

/-- Insertion sort, modelling `DataFrame.sort_values`. -/
def sortBy (le : α → α → Bool) : List α → List α
  | [] => []
  | a :: l => insertBy le a (sortBy le l)

/-- The pivoted frame in final scan order: sorted by `['Person','day']`,
then by `'day'` (lines 194 and 196 of the source). -/
def sortedPivot (rows : List Row) (yr : Nat → Nat) (year : Nat) : List PRow :=
  sortBy dayLe (sortBy lexLe (pivotRows rows yr year))

/-- Running per-person totals held by the grouped cumulative sum. -/
def totOf (tot : List (String × Int)) (p : String) : Int :=
  ((tot.find? (fun e => e.1 == p)).map (fun e => e.2)).getD 0

/-- One row of a per-metric subset before colouring: full person name,
day and the aligned cumulative value. -/
structure SRow where
  person : String
  day : Nat
  value : Int
deriving DecidableEq

/-- Lines 198–200 of the source for one metric column: walk the
day-sorted frame keeping per-person running totals (the groupwise
`cumsum` over the full frame); a row survives the `!= 0` filter exactly
when its own daily value is non-zero, and then carries the cumulative
value aligned to it by index. -/
def cumsumFiltered (f : List Row) (m : String) : List PRow → List (String × Int) → List SRow
  | [], _ => []
  | pr :: rest, tot =>
      let v := pivotVal f pr.person pr.date m
      let t := totOf tot pr.person + v
      let tot' := dictInsert tot pr.person t
      if v != 0 then ⟨pr.person, pr.date, t⟩ :: cumsumFiltered f m rest tot'
      else cumsumFiltered f m rest tot'

/-- The per-metric subset with cumulative values, full names still intact. -/
def subsetRaw (rows : List Row) (yr : Nat → Nat) (year : Nat) (m : String) : List SRow :=
  cumsumFiltered (yearFiltered rows yr year) m (sortedPivot rows yr year) []

/-- Tokenisation of a character list on spaces, dropping empty pieces
(Python's `str.split()` with no argument). -/
def tokensAux : List Char → List Char → List String
  | [], cur => if cur.isEmpty then [] else [String.mk cur.reverse]
  | c :: cs, cur =>
      if c == ' ' then
        if cur.isEmpty then tokensAux cs [] else String.mk cur.reverse :: tokensAux cs []
      else tokensAux cs (c :: cur)

/-- `df_subset['Person'].str.split().str[0]`: the first
whitespace-delimited token of a full name. -/
def firstToken (s : String) : String :=
  (tokensAux s.data []).headD ""

/-- Position of the first occurrence of `p` in a list (the index used by
`enumerate(unique_persons)`). -/
def posIn (p : String) : List String → Nat
  | [] => 0
  | q :: l => if q = p then 0 else posIn p l + 1

/-- One row of a written gapminder file. -/
structure OutRow where
  person : String
  day : Nat
  value : Int
  color : Nat
deriving DecidableEq

/-- Lines 202–204 of the source: enumerate the persons of the subset in
first-appearance order, give the `i`-th one colour `i + 1`, and map every
row's person through that dict. -/
def colorize (l : List SRow) : List OutRow :=
  let ups := uniqueFirst (l.map (fun s => s.person))
  l.map (fun s => ⟨s.person, s.day, s.value, posIn s.person ups + 1⟩)

/-- The per-metric subset after the `Person` column is truncated to
first tokens (line 201 of the source). -/
def fileBase (rows : List Row) (yr : Nat → Nat) (year : Nat) (m : String) : List SRow :=
  (subsetRaw rows yr year m).map (fun s => ⟨firstToken s.person, s.day, s.value⟩)

/-- `unique_persons` for a metric's subset: the truncated person names in
first-appearance scan order. -/
def filePersons (rows : List Row) (yr : Nat → Nat) (year : Nat) (m : String) : List String :=
  uniqueFirst ((fileBase rows yr year m).map (fun s => s.person))

/-- The rows written to `gapminder_<m>.csv`: the per-metric subset with
person names truncated to their first token, then coloured. -/
def fileRows (rows : List Row) (yr : Nat → Nat) (year : Nat) (m : String) : List OutRow :=
  colorize (fileBase rows yr year m)

/-- `Leaderboard.save_gapminder` as a pure function: one
`(file name, file rows)` pair per metric column. -/
def save_gapminder (rows : List Row) (yr : Nat → Nat) (year : Nat) :
    List (String × List OutRow) :=
  (metricCols (yearFiltered rows yr year)).map
    (fun m => ("gapminder_" ++ m ++ ".csv", fileRows rows yr year m))

/-- Well-formedness of the snapshot passed to the unstack: no duplicate
`(date, metric)` pair among the year's rows (pandas `unstack` raises
otherwise, so the aggregation only runs on such snapshots). -/
def snapWF (rows : List Row) (yr : Nat → Nat) (year : Nat) : Prop :=
  ((yearFiltered rows yr year).map (fun r => (r.date, r.metric))).Nodup

instance (rows : List Row) (yr : Nat → Nat) (year : Nat) : Decidable (snapWF rows yr year) := by
  unfold snapWF
  infer_instance

/-! ## Date-representation model for the in-place mutation of
`save_gapminder` (line 183 of the source) -/

/-- A value held by the `date` column of the in-memory frame: an ISO
string (fresh rows), a `datetime.date` (after `update_data`, line 146),
or a pandas `Timestamp` (after `pd.to_datetime`). -/
inductive DateCell where
  | iso : Nat → DateCell
  | pydate : Nat → DateCell
  | ts : Nat → DateCell
deriving DecidableEq

/-- The calendar date denoted by a date cell. -/
def DateCell.day : DateCell → Nat
  | .iso d => d
  | .pydate d => d
  | .ts d => d

/-- `pd.to_datetime` on a date cell: any representation becomes a
`Timestamp` of the same calendar date. -/
def to_datetime (c : DateCell) : DateCell :=
  .ts c.day

/-- A snapshot row whose `date` cell carries its representation. -/
structure RowR where
  date : DateCell
  metric : String
  values : List (String × Int)
deriving DecidableEq

/-- Forget the representation of the date column. -/
def RowR.strip (r : RowR) : Row :=
  ⟨r.date.day, r.metric, r.values⟩

/-- Lines 182–183 of the source: `df = self.lb_df` aliases the snapshot
frame and `df['date'] = pd.to_datetime(df['date'])` rewrites its date
column in place. -/
def save_mutate (mem : List RowR) : List RowR :=
  mem.map (fun r => { r with date := to_datetime r.date })

/-- One whole `save_gapminder` run: the snapshot frame after the in-place
date conversion, together with the files written. -/
def save_run (mem : List RowR) (yr : Nat → Nat) (year : Nat) :
    List RowR × List (String × List OutRow) :=
  (save_mutate mem, save_gapminder ((save_mutate mem).map RowR.strip) yr year)

/-- The names of the files written by a `save_gapminder` run. -/
def save_writes (mem : List RowR) (yr : Nat → Nat) (year : Nat) : List String :=
  (save_run mem yr year).2.map (fun e => e.1)

/-! ## Specification-side helpers used to state the claims -/

/-- Prefix sums of a delta list restricted to its non-zero entries: the
running total after each non-zero delta, in order. -/
def cumNZ (acc : Int) : List Int → List Int
  | [] => []
  | v :: rest => if v != 0 then (acc + v) :: cumNZ (acc + v) rest else cumNZ acc rest

/-- The daily deltas of person `p` for metric `m` along a pivot-row scan. -/
def deltasFor (f : List Row) (m p : String) (l : List PRow) : List Int :=
  (l.filter (fun pr => pr.person == p)).map (fun pr => pivotVal f p pr.date m)

/-- Whether the activity response for `(date, actTypeId)` succeeds and
contains the `ACTIVITY_TOTAL_DISTANCE` key (the guard of line 166 of the
source). -/
def hasDistKey (api : Api) (d tid : Nat) : Bool :=
  match api.activity d tid with
  | .ok resp => (lookupMap resp.metricsMap ("ACTIVITY_TOTAL_DISTANCE")).isSome
  | .error _ => false

/-! ## Concrete inputs used by counterexamples and witnesses -/

/-- A service response holding the given persons and values under the
given metric-map key. -/
def okResp (ps : List (String × Int)) (key : String) : Response :=
  ⟨[(key, ps.map (fun e => ⟨e.2, e.1⟩))]⟩

/-- A service that always answers successfully with the distance /
wellness keys present. -/
def api_ok : Api :=
  { activity := fun _ _ => .ok (okResp [("Ann X", 4)] ("ACTIVITY_TOTAL_DISTANCE")),
    wellness := fun _ => .ok (okResp [("Ann X", 9)] ("WELLNESS_TOTAL_STEPS")) }

/-- A service whose wellness call fails on date 3 and succeeds elsewhere. -/
def api_c1 : Api :=
  { activity := fun _ _ => .ok (okResp [("Alice", 2)] ("ACTIVITY_TOTAL_DISTANCE")),
    wellness := fun d => if d == 3 then .error ("TransportError")
                         else .ok (okResp [("Alice", 3)] ("WELLNESS_TOTAL_STEPS")) }

/-- A snapshot holding one already-persisted day (date 1). -/
def prior_c1 : List Row :=
  [⟨1, "Steps", [("Alice", 5)]⟩]

/-- The rows `api_c1` yields for date 2 (the one day that completes). -/
def day2rows_c1 : List Row :=
  [⟨2, "Cycling", [("Alice", 2)]⟩, ⟨2, "Swimming", [("Alice", 2)]⟩,
   ⟨2, "Walking", [("Alice", 2)]⟩, ⟨2, "Running", [("Alice", 2)]⟩,
   ⟨2, "Steps", [("Alice", 3)]⟩]

/-- A service whose Cycling (`actTypeId = 2`) response lacks the
`ACTIVITY_TOTAL_DISTANCE` key. -/
def api_c8 : Api :=
  { activity := fun _ tid => if tid == 2 then .ok ⟨[("SOMETHING_ELSE", [])]⟩
                             else .ok (okResp [("Ann X", 4)] ("ACTIVITY_TOTAL_DISTANCE")),
    wellness := fun _ => .ok (okResp [("Ann X", 9)] ("WELLNESS_TOTAL_STEPS")) }

/-- The rows `api_c8` yields for date 7: no Cycling row. -/
def day7rows_c8 : List Row :=
  [⟨7, "Swimming", [("Ann X", 4)]⟩, ⟨7, "Walking", [("Ann X", 4)]⟩,
   ⟨7, "Running", [("Ann X", 4)]⟩, ⟨7, "Steps", [("Ann X", 9)]⟩]

/-- A snapshot with two full names sharing the first token, both active
on the same day. -/
def rows_c5 : List Row :=
  [⟨1, "Steps", [("John Smith", 5), ("John Doe", 7)]⟩]

/-- The `[10, 0, 5]` example scenario of the specification. -/
def rows_ex : List Row :=
  [⟨1, "Cycling", [("Al B", 10)]⟩, ⟨2, "Cycling", [("Al B", 0)]⟩,
   ⟨3, "Cycling", [("Al B", 5)]⟩]

/-- A one-row snapshot used by collector witnesses. -/
def rows_w : List Row :=
  [⟨1, "Steps", [("Cara D", 3)]⟩]

/-- A snapshot where person `Bob E` has only zero-valued fetched data. -/
def rows_c3 : List Row :=
  [⟨1, "Steps", [("Bob E", 0), ("Ann X", 5)]⟩,
   ⟨2, "Steps", [("Bob E", 0), ("Ann X", 2)]⟩]

/-- An in-memory snapshot (with date representation) as `update_data`
leaves it: `datetime.date` cells. -/
def mem_c7 : List RowR :=
  [⟨.pydate 1, "Steps", [("Cara D", 3)]⟩]

/-! ## Collector lemmas -/

theorem get_distances_aux_dates (api : Api) (d : Nat) :
    ∀ (acts : List (String × Nat)) (l : List Row),
      get_distances_aux api d acts = .ok l → ∀ r ∈ l, r.date = d := by
  intro acts
  induction acts with
  | nil =>
      intro l h r hr
      simp only [get_distances_aux] at h
      cases h
      simp at hr
  | cons a rest ih =>
      intro l h r hr
      obtain ⟨name, tid⟩ := a
      simp only [get_distances_aux, bind, Except.bind] at h
      cases hact : api.activity d tid with
      | error e => rw [hact] at h; cases h
      | ok lb =>
          rw [hact] at h
          dsimp only at h
          cases hrec : get_distances_aux api d rest with
          | error e => rw [hrec] at h; cases h
          | ok tail =>
              rw [hrec] at h
              dsimp only at h
              cases hkey : lookupMap lb.metricsMap ("ACTIVITY_TOTAL_DISTANCE") with
              | some es =>
                  rw [hkey] at h
                  dsimp only at h
                  cases h
                  rcases List.mem_cons.mp hr with heq | hr
                  · rw [heq]
                  · exact ih tail hrec r hr
              | none =>
                  rw [hkey] at h
                  dsimp only at h
                  cases h
                  exact ih l hrec r hr

theorem get_steps_date (api : Api) (d : Nat) (s : Row)
    (h : get_steps_for_date api d = .ok s) : s.date = d := by
  simp only [get_steps_for_date, bind, Except.bind] at h
  cases hw : api.wellness d with
  | error e => rw [hw] at h; cases h
  | ok lb =>
      rw [hw] at h
      dsimp only at h
      cases hkey : lookupMap lb.metricsMap ("WELLNESS_TOTAL_STEPS") with
      | some es => rw [hkey] at h; dsimp only at h; cases h; rfl
      | none => rw [hkey] at h; dsimp only at h; cases h

theorem fetchDay_dates (api : Api) (d : Nat) (l : List Row)
    (h : fetchDay api d = .ok l) : ∀ r ∈ l, r.date = d := by
  simp only [fetchDay, bind, Except.bind] at h
  cases hd : get_distances_for_date api d with
  | error e => rw [hd] at h; cases h
  | ok dist =>
      rw [hd] at h
      dsimp only at h
      cases hs : get_steps_for_date api d with
      | error e => rw [hs] at h; cases h
      | ok steps =>
          rw [hs] at h
          dsimp only at h
          cases h
          intro r hr
          rcases List.mem_append.mp hr with hr | hr
          · exact get_distances_aux_dates api d activity_types dist hd r hr
          · rw [List.mem_singleton.mp hr]
            exact get_steps_date api d steps hs

theorem fetchDay_has_date (api : Api) (d : Nat) (l : List Row)
    (h : fetchDay api d = .ok l) : ∃ r ∈ l, r.date = d := by
  simp only [fetchDay, bind, Except.bind] at h
  cases hd : get_distances_for_date api d with
  | error e => rw [hd] at h; cases h
  | ok dist =>
      rw [hd] at h
      dsimp only at h
      cases hs : get_steps_for_date api d with
      | error e => rw [hs] at h; cases h
      | ok steps =>
          rw [hs] at h
          dsimp only at h
          cases h
          exact ⟨steps, by simp, get_steps_date api d steps hs⟩

theorem runLoop_spec (api : Api) :
    ∀ (ds : List Nat) (rows : List Row),
      ∃ extra, (runLoop api rows ds).1 = rows ++ extra ∧ ∀ r ∈ extra, r.date ∈ ds := by
  intro ds
  induction ds with
  | nil => intro rows; exact ⟨[], by simp [runLoop], by simp⟩
  | cons d rest ih =>
      intro rows
      simp only [runLoop]
      cases hf : fetchDay api d with
      | error e => exact ⟨[], by simp, by simp⟩
      | ok dayRows =>
          obtain ⟨extra, h1, h2⟩ := ih (rows ++ dayRows)
          refine ⟨dayRows ++ extra, by simp [h1], ?_⟩
          intro r hr
          rcases List.mem_append.mp hr with hr | hr
          · simp [fetchDay_dates api d dayRows hf r hr]
          · simp [h2 r hr]

theorem runLoop_complete (api : Api) :
    ∀ (ds : List Nat) (rows : List Row),
      (runLoop api rows ds).2 = none →
        ∀ d ∈ ds, ∃ r ∈ (runLoop api rows ds).1, r.date = d := by
  intro ds
  induction ds with
  | nil => simp
  | cons d rest ih =>
      intro rows hnone d' hd'
      simp only [runLoop] at hnone ⊢
      cases hf : fetchDay api d with
      | error e => rw [hf] at hnone; cases hnone
      | ok dayRows =>
          rw [hf] at hnone
          dsimp only at hnone ⊢
          rcases List.mem_cons.mp hd' with hd' | hd'
          · obtain ⟨r, hr, hrd⟩ := fetchDay_has_date api d dayRows hf
            obtain ⟨extra, h1, _⟩ := runLoop_spec api rest (rows ++ dayRows)
            refine ⟨r, ?_, by rw [hrd, hd']⟩
            rw [h1]
            simp [hr]
          · exact ih (rows ++ dayRows) hnone d' hd'

theorem le_foldl_maxDate (l : List Row) :
    ∀ acc, acc ≤ l.foldl (fun m r => max m r.date) acc := by
  induction l with
  | nil => intro acc; simp
  | cons r rest ih =>
      intro acc
      simp only [List.foldl_cons]
      exact le_trans (le_max_left acc r.date) (ih (max acc r.date))

theorem date_le_maxDate (l : List Row) :
    ∀ (acc : Nat) (r : Row), r ∈ l → r.date ≤ l.foldl (fun m h => max m h.date) acc := by
  induction l with
  | nil => simp
  | cons s rest ih =>
      intro acc r hr
      simp only [List.foldl_cons]
      rcases List.mem_cons.mp hr with heq | hr
      · rw [heq]
        exact le_trans (le_max_right acc s.date) (le_foldl_maxDate rest (max acc s.date))
      · exact ih (max acc s.date) r hr

theorem maxDate_mem_le (r : Row) (l : List Row) (h : r ∈ l) : r.date ≤ maxDate l :=
  date_le_maxDate l 0 r h

theorem maxDate_append_left (rows extra : List Row) :
    maxDate rows ≤ maxDate (rows ++ extra) := by
  unfold maxDate
  rw [List.foldl_append]
  exact le_foldl_maxDate extra _

/-! ## Claim C10 -/

/-- C10: with no persisted snapshot file and a configured start date
after yesterday, `update_data` does not finish as a zero-row no-op: the
date loop never runs, the store is still the empty columnless frame, and
`set_index('date')` fails, so nothing is persisted. -/
theorem c10_empty_store_start_after_yesterday (api : Api) (startD today : Nat)
    (h : today - 1 < startD) :
    update_data api today (load_data none startD) = ⟨false, [], none⟩ := by
  have h0 : today - 1 + 1 - startD = 0 := by omega
  simp only [update_data, load_data, date_range, h0]
  rfl

/-- Witness for C10 at a concrete input: start date 5, today 3. -/
theorem c10_empty_store_start_after_yesterday_witness :
    3 - 1 < 5 ∧ update_data api_c1 3 (load_data none 5) = ⟨false, [], none⟩ :=
  ⟨by decide, c10_empty_store_start_after_yesterday api_c1 5 3 (by decide)⟩

/-! ## Claim C1 -/

/-- C1 (code evaluation at the failing input): starting from a snapshot
holding date 1, with today = 4, date 2 succeeds and the Steps fetch for
date 3 fails.  The run returns abnormally, the in-memory frame holds the
prior rows plus the completed day 2 (and nothing of the partially
processed day 3), but nothing at all is persisted: `to_csv` is never
reached, so the snapshot file still holds only the pre-run rows — not
the day-2 rows the claim says are persisted. -/
theorem c1_midrun_failure_persists_nothing :
    update_data api_c1 4 (load_data (some prior_c1) 0)
      = ⟨false, prior_c1 ++ day2rows_c1, none⟩ := by
  decide

/-! ## Shape of `update_data` runs -/

theorem update_data_none (api : Api) (today : Nat) (st : LB) (hc : st.hasCols = true)
    (h : (runLoop api st.rows (date_range st.nextDate (today - 1))).2 = none) :
    update_data api today st =
      ⟨true, (runLoop api st.rows (date_range st.nextDate (today - 1))).1,
        some (runLoop api st.rows (date_range st.nextDate (today - 1))).1⟩ := by
  simp only [update_data, h, hc, Bool.not_true, Bool.and_false, Bool.false_eq_true, if_false]

theorem update_data_some (api : Api) (today : Nat) (st : LB) (e : String)
    (h : (runLoop api st.rows (date_range st.nextDate (today - 1))).2 = some e) :
    update_data api today st =
      ⟨false, (runLoop api st.rows (date_range st.nextDate (today - 1))).1, none⟩ := by
  simp only [update_data, h]

theorem update_data_ok_none (api : Api) (today : Nat) (st : LB)
    (hok : (update_data api today st).ok = true) :
    (runLoop api st.rows (date_range st.nextDate (today - 1))).2 = none := by
  cases h : (runLoop api st.rows (date_range st.nextDate (today - 1))).2 with
  | none => rfl
  | some e => rw [update_data_some api today st e h] at hok; cases hok

/-! ## Claim C9 -/

/-- C9: a successful Collector run only appends: the in-memory and
persisted row lists extend the loaded rows unchanged, and every appended
row is for a date strictly after the last persisted date (and at most
yesterday). -/
theorem c9_append_only_invariant (api : Api) (startD today : Nat) (rows0 : List Row)
    (hok : (update_data api today (load_data (some rows0) startD)).ok = true) :
    ∃ extra,
      (update_data api today (load_data (some rows0) startD)).memRows = rows0 ++ extra ∧
      (update_data api today (load_data (some rows0) startD)).persisted = some (rows0 ++ extra) ∧
      ∀ r ∈ extra, maxDate rows0 < r.date ∧ r.date ≤ today - 1 := by
  have hn := update_data_ok_none api today (load_data (some rows0) startD) hok
  simp only [load_data] at hn
  obtain ⟨extra, h1, h2⟩ :=
    runLoop_spec api (date_range (maxDate rows0 + 1) (today - 1)) rows0
  have hdates : ∀ r ∈ extra, maxDate rows0 < r.date ∧ r.date ≤ today - 1 := by
    intro r hr
    have := h2 r hr
    simp only [date_range] at this
    have := List.mem_range'_1.mp this
    omega
  have hrule := update_data_none api today (load_data (some rows0) startD) rfl
    (by simp only [load_data]; exact hn)
  simp only [load_data] at hrule
  simp only [load_data]
  rw [hrule]
  exact ⟨extra, h1, by rw [h1], hdates⟩

/-- Witness for C9: a run of `api_ok` from a one-day snapshot with
today = 3 succeeds, and the theorem applies to it. -/
theorem c9_append_only_invariant_witness :
    (update_data api_ok 3 (load_data (some rows_w) 0)).ok = true ∧
      ∃ extra,
        (update_data api_ok 3 (load_data (some rows_w) 0)).memRows = rows_w ++ extra ∧
        (update_data api_ok 3 (load_data (some rows_w) 0)).persisted = some (rows_w ++ extra) ∧
        ∀ r ∈ extra, maxDate rows_w < r.date ∧ r.date ≤ 3 - 1 :=
  ⟨by decide, c9_append_only_invariant api_ok 0 3 rows_w (by decide)⟩

/-! ## Claim C6 -/

/-- C6: running `update_data` twice with no calendar day elapsing is
idempotent.  After a successful first run the persisted snapshot's
maximal date is at least yesterday, so the second run's
`next_date = max + 1` exceeds yesterday, its date loop body never
executes, and it completes normally with the snapshot row set unchanged. -/
theorem c6_resumption_idempotence (api1 api2 : Api) (startD today : Nat)
    (rows1 : List Row) (_hne : rows1 ≠ [])
    (hok : (update_data api1 today (load_data (some rows1) startD)).ok = true) :
    ∃ R, (update_data api1 today (load_data (some rows1) startD)).persisted = some R ∧
      update_data api2 today (load_data (some R) startD) = ⟨true, R, some R⟩ := by
  have hn := update_data_ok_none api1 today (load_data (some rows1) startD) hok
  simp only [load_data] at hn
  have hrule := update_data_none api1 today (load_data (some rows1) startD) rfl
    (by simp only [load_data]; exact hn)
  simp only [load_data] at hrule
  set R := (runLoop api1 rows1 (date_range (maxDate rows1 + 1) (today - 1))).1 with hR
  have hmax : today - 1 ≤ maxDate R := by
    rcases le_or_lt (maxDate rows1 + 1) (today - 1) with hle | hgt
    · have hmem : (today - 1) ∈ date_range (maxDate rows1 + 1) (today - 1) := by
        simp only [date_range]
        exact List.mem_range'_1.mpr ⟨hle, by omega⟩
      obtain ⟨r, hrmem, hrd⟩ :=
        runLoop_complete api1 (date_range (maxDate rows1 + 1) (today - 1)) rows1 hn
          (today - 1) hmem
      calc today - 1 = r.date := hrd.symm
        _ ≤ maxDate R := maxDate_mem_le r R (by rw [hR]; exact hrmem)
    · obtain ⟨extra, hext, _⟩ :=
        runLoop_spec api1 (date_range (maxDate rows1 + 1) (today - 1)) rows1
      have hmono : maxDate rows1 ≤ maxDate R := by
        rw [hR, hext]
        exact maxDate_append_left rows1 extra
      omega
  have hrange2 : date_range (maxDate R + 1) (today - 1) = [] := by
    simp only [date_range]
    have hz : today - 1 + 1 - (maxDate R + 1) = 0 := by omega
    rw [hz]
    rfl
  have hrule2 := update_data_none api2 today (load_data (some R) startD) rfl
    (by simp only [load_data, hrange2, runLoop])
  simp only [load_data, hrange2, runLoop] at hrule2
  refine ⟨R, ?_, ?_⟩
  · simp only [load_data]
    rw [hrule]
  · simp only [load_data]
    rw [hrule2]

/-- Witness for C6: a successful concrete first run with `api_ok`,
followed by a second run on the same day. -/
theorem c6_resumption_idempotence_witness :
    (rows_w ≠ [] ∧ (update_data api_ok 3 (load_data (some rows_w) 0)).ok = true) ∧
      ∃ R, (update_data api_ok 3 (load_data (some rows_w) 0)).persisted = some R ∧
        update_data api_ok 3 (load_data (some R) 0) = ⟨true, R, some R⟩ :=
  ⟨⟨by decide, by decide⟩,
    c6_resumption_idempotence api_ok api_ok 0 3 rows_w (by decide) (by decide)⟩

/-! ## Claim C8 -/

theorem get_steps_metric (api : Api) (d : Nat) (s : Row)
    (h : get_steps_for_date api d = .ok s) : s.metric = "Steps" := by
  simp only [get_steps_for_date, bind, Except.bind] at h
  cases hw : api.wellness d with
  | error e => rw [hw] at h; cases h
  | ok lb =>
      rw [hw] at h
      dsimp only at h
      cases hkey : lookupMap lb.metricsMap ("WELLNESS_TOTAL_STEPS") with
      | some es => rw [hkey] at h; dsimp only at h; cases h; rfl
      | none => rw [hkey] at h; dsimp only at h; cases h

theorem get_distances_aux_metrics (api : Api) (d : Nat) :
    ∀ (acts : List (String × Nat)) (l : List Row),
      get_distances_aux api d acts = .ok l →
        l.map (fun r => r.metric)
          = (acts.filter (fun nt => hasDistKey api d nt.2)).map (fun nt => nt.1) := by
  intro acts
  induction acts with
  | nil =>
      intro l h
      simp only [get_distances_aux] at h
      cases h
      rfl
  | cons a rest ih =>
      intro l h
      obtain ⟨name, tid⟩ := a
      simp only [get_distances_aux, bind, Except.bind] at h
      cases hact : api.activity d tid with
      | error e => rw [hact] at h; cases h
      | ok lb =>
          rw [hact] at h
          dsimp only at h
          have hkd : hasDistKey api d tid
              = (lookupMap lb.metricsMap ("ACTIVITY_TOTAL_DISTANCE")).isSome := by
            simp only [hasDistKey, hact]
          cases hrec : get_distances_aux api d rest with
          | error e => rw [hrec] at h; cases h
          | ok tail =>
              rw [hrec] at h
              dsimp only at h
              cases hkey : lookupMap lb.metricsMap ("ACTIVITY_TOTAL_DISTANCE") with
              | some es =>
                  rw [hkey] at h
                  dsimp only at h
                  cases h
                  rw [hkey] at hkd
                  simp only [List.map_cons, List.filter_cons, hkd, Option.isSome_some,
                    if_true, List.map_cons]
                  rw [ih tail hrec]
              | none =>
                  rw [hkey] at h
                  dsimp only at h
                  cases h
                  rw [hkey] at hkd
                  simp only [List.filter_cons, hkd, Option.isSome_none, Bool.false_eq_true,
                    if_false]
                  exact ih l hrec

/-- C8 counterexample: on a service whose Cycling response lacks the
`ACTIVITY_TOTAL_DISTANCE` key, the day's accumulated rows contain no
Cycling row at all — four rows, not one per tracked metric. -/
theorem c8_counterexample_missing_metric_row :
    fetchDay api_c8 7 = .ok day7rows_c8
    ∧ day7rows_c8.length = 4
    ∧ ¬ ∃ r ∈ day7rows_c8, r.metric = "Cycling" := by
  decide

/-- C8 (amended): for every date the Collector processes, one row is
accumulated per activity metric whose response carries the
`ACTIVITY_TOTAL_DISTANCE` key, in the fixed order Cycling, Swimming,
Walking, Running, followed by exactly one Steps row; all rows carry the
processed date.  (The claim's "one row per metric regardless of the
response" fails: a keyless activity response yields no row.) -/
theorem c8_amended_rows_per_metric (api : Api) (d : Nat) (l : List Row)
    (h : fetchDay api d = .ok l) :
    l.map (fun r => r.metric)
      = (activity_types.filter (fun nt => hasDistKey api d nt.2)).map (fun nt => nt.1)
        ++ ["Steps"]
    ∧ ∀ r ∈ l, r.date = d := by
  refine ⟨?_, fetchDay_dates api d l h⟩
  simp only [fetchDay, bind, Except.bind] at h
  cases hd : get_distances_for_date api d with
  | error e => rw [hd] at h; cases h
  | ok dist =>
      rw [hd] at h
      dsimp only at h
      cases hs : get_steps_for_date api d with
      | error e => rw [hs] at h; cases h
      | ok steps =>
          rw [hs] at h
          dsimp only at h
          cases h
          rw [List.map_append]
          rw [get_distances_aux_metrics api d activity_types dist hd]
          simp [get_steps_metric api d steps hs]

/-- Witness for C8 (amended) at the concrete keyless-Cycling service. -/
theorem c8_amended_rows_per_metric_witness :
    fetchDay api_c8 7 = .ok day7rows_c8
    ∧ (day7rows_c8.map (fun r => r.metric)
        = (activity_types.filter (fun nt => hasDistKey api_c8 7 nt.2)).map (fun nt => nt.1)
          ++ ["Steps"]
      ∧ ∀ r ∈ day7rows_c8, r.date = 7) :=
  ⟨by decide, c8_amended_rows_per_metric api_c8 7 day7rows_c8 (by decide)⟩

/-! ## Claim C7 -/

/-- C7 counterexample: `save_gapminder` does mutate the in-memory
snapshot.  On a snapshot whose date column holds `datetime.date` cells
(as `update_data` leaves it), line 183's in-place
`df['date'] = pd.to_datetime(df['date'])` rewrites the aliased frame, so
the in-memory snapshot after the run differs from the one before. -/
theorem c7_counterexample_inmemory_mutation :
    (save_run mem_c7 (fun _ => 2023) 2023).1 ≠ mem_c7 := by
  decide

theorem gap_name_ne (m : String) : ("gapminder_" ++ m ++ ".csv") ≠ "leaderboard.csv" := by
  intro h
  have hd : ("gapminder_" ++ m ++ ".csv").data = ("leaderboard.csv").data := by rw [h]
  rw [String.data_append, String.data_append] at hd
  rw [show ("gapminder_").data = 'g' :: ("apminder_").data from rfl] at hd
  rw [show ("leaderboard.csv").data = 'l' :: ("eaderboard.csv").data from rfl] at hd
  simp only [List.cons_append] at hd
  exact absurd (List.cons.inj hd).1 (by decide)

/-- C7 (amended): a `save_gapminder` run never writes the snapshot file
(every file it writes is some `gapminder_<metric>.csv`, never
`leaderboard.csv`), and it preserves the snapshot's calendar dates,
metrics and person values; but it does mutate the in-memory frame, in
place converting every date cell to its `Timestamp` representation. -/
theorem c7_amended_aggregator_effects (mem : List RowR) (yr : Nat → Nat) (year : Nat) :
    (save_run mem yr year).1.map RowR.strip = mem.map RowR.strip
    ∧ (∀ r ∈ (save_run mem yr year).1, r.date = .ts r.date.day)
    ∧ ("leaderboard.csv") ∉ save_writes mem yr year := by
  refine ⟨?_, ?_, ?_⟩
  · show (mem.map _).map _ = _
    rw [List.map_map]
    rfl
  · intro r hr
    obtain ⟨r0, _, hr0⟩ := List.mem_map.mp hr
    rw [← hr0]
    rfl
  · intro hmem
    simp only [save_writes, save_run, save_gapminder, List.map_map, List.mem_map] at hmem
    obtain ⟨m, _, hm⟩ := hmem
    exact gap_name_ne m hm

/-! ## Deduplication, sorting and running-total lemmas -/

theorem mem_uniqueFirstAux [DecidableEq α] :
    ∀ (l seen : List α) (a : α),
      a ∈ uniqueFirstAux seen l ↔ a ∈ l ∧ a ∉ seen := by
  intro l
  induction l with
  | nil => simp [uniqueFirstAux]
  | cons x xs ih =>
      intro seen a
      simp only [uniqueFirstAux]
      by_cases hx : x ∈ seen
      · rw [if_pos hx, ih]
        constructor
        · rintro ⟨ha, hs⟩
          exact ⟨List.mem_cons_of_mem x ha, hs⟩
        · rintro ⟨ha, hs⟩
          rcases List.mem_cons.mp ha with rfl | ha
          · exact absurd hx hs
          · exact ⟨ha, hs⟩
      · rw [if_neg hx]
        simp only [List.mem_cons, ih]
        constructor
        · rintro (rfl | ⟨ha, hs⟩)
          · exact ⟨Or.inl rfl, hx⟩
          · exact ⟨Or.inr ha, fun h => hs (Or.inr h)⟩
        · rintro ⟨rfl | ha, hs⟩
          · exact Or.inl rfl
          · by_cases hax : a = x
            · exact Or.inl hax
            · exact Or.inr ⟨ha, fun h => by
                rcases h with h | h
                · exact hax h
                · exact hs h⟩

theorem nodup_uniqueFirstAux [DecidableEq α] :
    ∀ (l seen : List α), (uniqueFirstAux seen l).Nodup := by
  intro l
  induction l with
  | nil => intro seen; simp [uniqueFirstAux]
  | cons x xs ih =>
      intro seen
      simp only [uniqueFirstAux]
      by_cases hx : x ∈ seen
      · rw [if_pos hx]
        exact ih seen
      · rw [if_neg hx]
        refine List.nodup_cons.mpr ⟨?_, ih (x :: seen)⟩
        intro hmem
        exact ((mem_uniqueFirstAux xs (x :: seen) x).mp hmem).2 (List.mem_cons_self x seen)

theorem mem_uniqueFirst [DecidableEq α] (l : List α) (a : α) :
    a ∈ uniqueFirst l ↔ a ∈ l := by
  unfold uniqueFirst
  rw [mem_uniqueFirstAux]
  simp

theorem nodup_uniqueFirst [DecidableEq α] (l : List α) : (uniqueFirst l).Nodup :=
  nodup_uniqueFirstAux l []

theorem uniqueFirst_cons [DecidableEq α] (x : α) (xs : List α) :
    uniqueFirst (x :: xs) = x :: uniqueFirstAux [x] xs := by
  simp [uniqueFirst, uniqueFirstAux]

theorem insertBy_perm (le : α → α → Bool) (a : α) :
    ∀ l : List α, (insertBy le a l).Perm (a :: l) := by
  intro l
  induction l with
  | nil => exact List.Perm.refl _
  | cons b t ih =>
      simp only [insertBy]
      by_cases h : le a b = true
      · rw [if_pos h]
      · rw [if_neg h]
        exact (List.Perm.cons b ih).trans (List.Perm.swap a b t)

theorem sortBy_perm (le : α → α → Bool) : ∀ l : List α, (sortBy le l).Perm l := by
  intro l
  induction l with
  | nil => exact List.Perm.refl _
  | cons a t ih =>
      simp only [sortBy]
      exact (insertBy_perm le a (sortBy le t)).trans (List.Perm.cons a ih)

theorem insertBy_pairwise (le : α → α → Bool)
    (htot : ∀ a b, le a b = true ∨ le b a = true)
    (htrans : ∀ a b c, le a b = true → le b c = true → le a c = true) (a : α) :
    ∀ l : List α, l.Pairwise (fun x y => le x y = true) →
      (insertBy le a l).Pairwise (fun x y => le x y = true) := by
  intro l
  induction l with
  | nil => intro _; simp [insertBy]
  | cons b t ih =>
      intro hp
      have hb := List.pairwise_cons.mp hp
      simp only [insertBy]
      by_cases h : le a b = true
      · rw [if_pos h]
        refine List.pairwise_cons.mpr ⟨?_, hp⟩
        intro y hy
        rcases List.mem_cons.mp hy with rfl | hy
        · exact h
        · exact htrans a b y h (hb.1 y hy)
      · rw [if_neg h]
        have hba : le b a = true := (htot a b).resolve_left h
        refine List.pairwise_cons.mpr ⟨?_, ih hb.2⟩
        intro y hy
        have hy' := (insertBy_perm le a t).mem_iff.mp hy
        rcases List.mem_cons.mp hy' with rfl | hy'
        · exact hba
        · exact hb.1 y hy'

theorem sortBy_pairwise (le : α → α → Bool)
    (htot : ∀ a b, le a b = true ∨ le b a = true)
    (htrans : ∀ a b c, le a b = true → le b c = true → le a c = true) :
    ∀ l : List α, (sortBy le l).Pairwise (fun x y => le x y = true) := by
  intro l
  induction l with
  | nil => simp [sortBy]
  | cons a t ih =>
      simp only [sortBy]
      exact insertBy_pairwise le htot htrans a (sortBy le t) ih

theorem find?_replace_eq (q : String) (t : Int) :
    ∀ tot : List (String × Int), tot.any (fun e => e.1 == q) = true →
      ((tot.map (fun e => if e.1 == q then (q, t) else e)).find? (fun e => e.1 == q))
        = some (q, t) := by
  intro tot
  induction tot with
  | nil => intro h; cases h
  | cons e rest ih =>
      intro h
      rw [List.map_cons]
      by_cases he : (e.1 == q) = true
      · rw [if_pos he]
        exact List.find?_cons_of_pos _ (by simp)
      · rw [if_neg he, @List.find?_cons_of_neg _ (fun x => x.1 == q) e _ he]
        apply ih
        simpa [List.any_cons, he] using h

theorem find?_replace_ne (q p : String) (t : Int) (hpq : p ≠ q) :
    ∀ tot : List (String × Int),
      ((tot.map (fun e => if e.1 == q then (q, t) else e)).find? (fun e => e.1 == p))
        = tot.find? (fun e => e.1 == p) := by
  intro tot
  induction tot with
  | nil => rfl
  | cons e rest ih =>
      rw [List.map_cons]
      by_cases he : (e.1 == q) = true
      · have he' : e.1 = q := by simpa using he
        rw [if_pos he, @List.find?_cons_of_neg _ (fun x => x.1 == p) (q, t) _
            (by simp [Ne.symm hpq]),
          @List.find?_cons_of_neg _ (fun x => x.1 == p) e _ (by simp [he', Ne.symm hpq])]
        exact ih
      · rw [if_neg he]
        by_cases hp : (e.1 == p) = true
        · rw [@List.find?_cons_of_pos _ (fun x => x.1 == p) e _ hp,
            @List.find?_cons_of_pos _ (fun x => x.1 == p) e _ hp]
        · rw [@List.find?_cons_of_neg _ (fun x => x.1 == p) e _ hp,
            @List.find?_cons_of_neg _ (fun x => x.1 == p) e _ hp]
          exact ih

theorem totOf_dictInsert (tot : List (String × Int)) (q p : String) (t : Int) :
    totOf (dictInsert tot q t) p = if p = q then t else totOf tot p := by
  unfold dictInsert totOf
  by_cases hq : tot.any (fun e => e.1 == q) = true
  · rw [if_pos hq]
    by_cases hpq : p = q
    · subst hpq
      rw [find?_replace_eq p t tot hq]
      simp
    · rw [find?_replace_ne q p t hpq tot, if_neg hpq]
  · rw [if_neg hq]
    have hany : tot.any (fun e => e.1 == q) = false := Bool.eq_false_iff.mpr hq
    have hnone : tot.find? (fun e => e.1 == q) = none := by
      rw [List.find?_eq_none]
      intro x hx
      have := List.any_eq_false.mp hany x hx
      simpa using this
    by_cases hpq : p = q
    · subst hpq
      rw [List.find?_append, hnone, if_pos rfl]
      rw [@List.find?_cons_of_pos _ (fun x => x.1 == p) (p, t) [] (by simp)]
      simp
    · rw [List.find?_append, if_neg hpq]
      have hlast : (([(q, t)] : List (String × Int)).find? (fun e => e.1 == p)) = none := by
        rw [List.find?_eq_none]
        intro x hx
        rw [List.mem_singleton.mp hx]
        simp [Ne.symm hpq]
      rw [hlast]
      cases tot.find? (fun e => e.1 == p) <;> rfl

theorem cumNZ_nil_of_zero :
    ∀ (l : List Int), (∀ v ∈ l, v = 0) → ∀ acc, cumNZ acc l = [] := by
  intro l
  induction l with
  | nil => intro _ acc; rfl
  | cons v rest ih =>
      intro h acc
      have hv : v = 0 := h v (List.mem_cons_self v rest)
      simp only [cumNZ, hv]
      have : ((0 : Int) != 0) = false := by decide
      rw [this]
      simp only [Bool.false_eq_true, if_false]
      exact ih (fun w hw => h w (List.mem_cons_of_mem v hw)) acc

theorem cumNZ_bounds (l : List Int) (h : ∀ v ∈ l, 0 ≤ v) :
    ∀ acc, List.Chain' (· ≤ ·) (cumNZ acc l) ∧ ∀ x ∈ cumNZ acc l, acc ≤ x := by
  induction l with
  | nil => intro acc; simp [cumNZ]
  | cons v rest ih =>
      intro acc
      have hv : 0 ≤ v := h v (List.mem_cons_self v rest)
      have hrest : ∀ w ∈ rest, 0 ≤ w := fun w hw => h w (List.mem_cons_of_mem v hw)
      simp only [cumNZ]
      by_cases hz : (v != 0) = true
      · rw [if_pos hz]
        obtain ⟨hchain, hmem⟩ := ih hrest (acc + v)
        refine ⟨List.chain'_cons'.mpr ⟨?_, hchain⟩, ?_⟩
        · intro y hy
          exact hmem y (List.mem_of_mem_head? hy)
        · intro x hx
          rcases List.mem_cons.mp hx with rfl | hx
          · omega
          · have := hmem x hx
            omega
      · rw [if_neg hz]
        exact ih hrest acc

/-! ## Lemmas about the grouped cumulative sum and the pivot -/

theorem cumsumFiltered_filter_map (f : List Row) (m p : String) :
    ∀ (l : List PRow) (tot : List (String × Int)),
      ((cumsumFiltered f m l tot).filter (fun s => s.person == p)).map (fun s => s.value)
        = cumNZ (totOf tot p) (deltasFor f m p l) := by
  intro l
  induction l with
  | nil => intro tot; rfl
  | cons pr rest ih =>
      intro tot
      simp only [cumsumFiltered, deltasFor, List.filter_cons]
      by_cases hpp : (pr.person == p) = true
      · have hpe : pr.person = p := by simpa using hpp
        rw [if_pos hpp]
        simp only [List.map_cons]
        by_cases hz : (pivotVal f pr.person pr.date m != 0) = true
        · rw [if_pos hz]
          rw [List.filter_cons_of_pos (by simpa using hpp)]
          simp only [List.map_cons]
          rw [ih (dictInsert tot pr.person (totOf tot pr.person + pivotVal f pr.person pr.date m))]
          simp only [deltasFor]
          rw [totOf_dictInsert, if_pos hpe.symm]
          simp only [cumNZ, hpe]
          rw [if_pos (by rw [← hpe]; exact hz)]
        · rw [if_neg hz]
          rw [ih (dictInsert tot pr.person (totOf tot pr.person + pivotVal f pr.person pr.date m))]
          simp only [deltasFor]
          rw [totOf_dictInsert, if_pos hpe.symm]
          have hz0 : pivotVal f pr.person pr.date m = 0 := by
            simpa using hz
          simp only [cumNZ, hpe]
          rw [if_neg (by rw [← hpe]; exact hz)]
          rw [hpe] at hz0
          rw [hz0]
          simp
      · have hpe : pr.person ≠ p := by simpa using hpp
        rw [if_neg hpp]
        by_cases hz : (pivotVal f pr.person pr.date m != 0) = true
        · rw [if_pos hz]
          rw [List.filter_cons_of_neg (by simpa using hpp)]
          rw [ih (dictInsert tot pr.person (totOf tot pr.person + pivotVal f pr.person pr.date m))]
          simp only [deltasFor]
          rw [totOf_dictInsert, if_neg (fun h => hpe h.symm)]
        · rw [if_neg hz]
          rw [ih (dictInsert tot pr.person (totOf tot pr.person + pivotVal f pr.person pr.date m))]
          simp only [deltasFor]
          rw [totOf_dictInsert, if_neg (fun h => hpe h.symm)]

theorem cumsumFiltered_pairs_sublist (f : List Row) (m : String) :
    ∀ (l : List PRow) (tot : List (String × Int)),
      ((cumsumFiltered f m l tot).map (fun s => (s.person, s.day))).Sublist
        (l.map (fun pr => (pr.person, pr.date))) := by
  intro l
  induction l with
  | nil => intro tot; simp [cumsumFiltered]
  | cons pr rest ih =>
      intro tot
      simp only [cumsumFiltered, List.map_cons]
      by_cases hz : (pivotVal f pr.person pr.date m != 0) = true
      · rw [if_pos hz]
        simp only [List.map_cons]
        exact List.Sublist.cons₂ _ (ih _)
      · rw [if_neg hz]
        exact List.Sublist.cons _ (ih _)

theorem cumsumFiltered_emitted_nonzero (f : List Row) (m : String) :
    ∀ (l : List PRow) (tot : List (String × Int)) (s : SRow),
      s ∈ cumsumFiltered f m l tot → pivotVal f s.person s.day m ≠ 0 := by
  intro l
  induction l with
  | nil => intro tot s h; simp [cumsumFiltered] at h
  | cons pr rest ih =>
      intro tot s h
      simp only [cumsumFiltered] at h
      by_cases hz : (pivotVal f pr.person pr.date m != 0) = true
      · rw [if_pos hz] at h
        rcases List.mem_cons.mp h with rfl | h
        · simpa using hz
        · exact ih _ s h
      · rw [if_neg hz] at h
        exact ih _ s h

theorem pivotVal_nonneg (rows : List Row) (yr : Nat → Nat) (year : Nat)
    (p : String) (d : Nat) (m : String)
    (hNN : ∀ r ∈ rows, ∀ kv ∈ r.values, 0 ≤ kv.2) :
    0 ≤ pivotVal (yearFiltered rows yr year) p d m := by
  unfold pivotVal
  cases hf : (yearFiltered rows yr year).find? (fun r => r.date == d && r.metric == m) with
  | none => simp
  | some r =>
      dsimp only
      have hrows : r ∈ rows := List.mem_of_mem_filter (List.mem_of_find?_eq_some hf)
      unfold cellValue
      cases hv : r.values.find? (fun e => e.1 == p) with
      | none => simp
      | some kv =>
          have hkv : kv ∈ r.values := List.mem_of_find?_eq_some hv
          simpa using hNN r hrows kv hkv

theorem pivotVal_zero_of_all_zero (f : List Row) (p m : String)
    (hz : ∀ r ∈ f, r.metric = m → (cellValue r p).getD 0 = 0) :
    ∀ d, pivotVal f p d m = 0 := by
  intro d
  unfold pivotVal
  cases hf : f.find? (fun r => r.date == d && r.metric == m) with
  | none => rfl
  | some r =>
      have h1 := List.find?_some hf
      have h2 := List.mem_of_find?_eq_some hf
      have hm : r.metric = m := by
        have := (Bool.and_eq_true _ _).mp h1
        simpa using this.2
      exact hz r h2 hm

theorem sortedPivot_perm (rows : List Row) (yr : Nat → Nat) (year : Nat) :
    (sortedPivot rows yr year).Perm (pivotRows rows yr year) :=
  (sortBy_perm dayLe _).trans (sortBy_perm lexLe _)

theorem sortedPivot_day_pairwise (rows : List Row) (yr : Nat → Nat) (year : Nat) :
    (sortedPivot rows yr year).Pairwise (fun a b => a.date ≤ b.date) := by
  have htot : ∀ a b : PRow, dayLe a b = true ∨ dayLe b a = true := by
    intro a b
    rcases Nat.le_total a.date b.date with h | h
    · exact Or.inl (by simpa [dayLe] using h)
    · exact Or.inr (by simpa [dayLe] using h)
  have htrans : ∀ a b c : PRow, dayLe a b = true → dayLe b c = true → dayLe a c = true := by
    intro a b c hab hbc
    have h1 : a.date ≤ b.date := by simpa [dayLe] using hab
    have h2 : b.date ≤ c.date := by simpa [dayLe] using hbc
    simpa [dayLe] using le_trans h1 h2
  have := sortBy_pairwise dayLe htot htrans (sortBy lexLe (pivotRows rows yr year))
  exact this.imp (fun h => by simpa [dayLe] using h)

theorem nodup_product_pairs (dates : List Nat) (hd : dates.Nodup) :
    ∀ cols : List String, cols.Nodup →
      (cols.flatMap (fun p => dates.map (fun d => (p, d)))).Nodup := by
  intro cols
  induction cols with
  | nil => intro _; simp
  | cons c cs ih =>
      intro hc
      simp only [List.flatMap_cons]
      rw [List.nodup_append]
      refine ⟨?_, ih (List.nodup_cons.mp hc).2, ?_⟩
      · exact hd.map (fun d1 d2 h => (Prod.mk.injEq c d1 c d2 ▸ h).2)
      · intro x hx1 hx2
        obtain ⟨d, _, hxd⟩ := List.mem_map.mp hx1
        obtain ⟨p', hp', hx⟩ := List.mem_flatMap.mp hx2
        obtain ⟨d', _, heq⟩ := List.mem_map.mp hx
        have hpd : (p', d') = (c, d) := heq.trans hxd.symm
        have hpc : p' = c := by injection hpd
        exact (List.nodup_cons.mp hc).1 (hpc ▸ hp')

theorem nodup_pivotRows_pairs (rows : List Row) (yr : Nat → Nat) (year : Nat) :
    ((pivotRows rows yr year).map (fun pr => (pr.person, pr.date))).Nodup := by
  unfold pivotRows
  rw [List.map_flatMap]
  simp only [List.map_map, Function.comp]
  exact nodup_product_pairs (pivotDates (yearFiltered rows yr year))
    (nodup_uniqueFirst _) (personCols rows) (nodup_uniqueFirst _)

theorem nodup_sortedPivot_pairs (rows : List Row) (yr : Nat → Nat) (year : Nat) :
    ((sortedPivot rows yr year).map (fun pr => (pr.person, pr.date))).Nodup :=
  (((sortedPivot_perm rows yr year).map (fun pr => (pr.person, pr.date))).symm).nodup
    (nodup_pivotRows_pairs rows yr year)

theorem sortedPivot_dates_in_year (rows : List Row) (yr : Nat → Nat) (year : Nat) :
    ∀ pr ∈ sortedPivot rows yr year, yr pr.date = year := by
  intro pr hpr
  have hpiv := (sortedPivot_perm rows yr year).subset hpr
  simp only [pivotRows] at hpiv
  obtain ⟨p', _, hmem⟩ := List.mem_flatMap.mp hpiv
  obtain ⟨d, hd, heq⟩ := List.mem_map.mp hmem
  have hdate : pr.date = d := by rw [← heq]
  have hdm : d ∈ (yearFiltered rows yr year).map (fun r => r.date) :=
    (mem_uniqueFirst _ _).mp hd
  obtain ⟨r, hr, hrd⟩ := List.mem_map.mp hdm
  have hfil := List.of_mem_filter hr
  rw [hdate, ← hrd]
  simpa using hfil

theorem subsetRaw_source (rows : List Row) (yr : Nat → Nat) (year : Nat) (m : String) :
    ∀ s ∈ subsetRaw rows yr year m, ∃ pr ∈ sortedPivot rows yr year,
      pr.person = s.person ∧ pr.date = s.day := by
  intro s hs
  have hm : (s.person, s.day) ∈ (subsetRaw rows yr year m).map (fun x => (x.person, x.day)) :=
    List.mem_map_of_mem _ hs
  have hmem := (cumsumFiltered_pairs_sublist (yearFiltered rows yr year) m
    (sortedPivot rows yr year) []).subset hm
  obtain ⟨pr, hpr, heq⟩ := List.mem_map.mp hmem
  exact ⟨pr, hpr, congrArg Prod.fst heq, congrArg Prod.snd heq⟩

/-! ## Colour-index lemmas -/

theorem posIn_lt_length (p : String) :
    ∀ l : List String, p ∈ l → posIn p l < l.length := by
  intro l
  induction l with
  | nil => simp
  | cons q t ih =>
      intro h
      simp only [posIn, List.length_cons]
      by_cases hq : q = p
      · rw [if_pos hq]
        omega
      · rw [if_neg hq]
        have hpt : p ∈ t := by
          rcases List.mem_cons.mp h with rfl | h
          · exact absurd rfl hq
          · exact h
        have := ih hpt
        omega

theorem posIn_inj : ∀ (l : List String), l.Nodup → ∀ a ∈ l, ∀ b ∈ l,
    posIn a l = posIn b l → a = b := by
  intro l
  induction l with
  | nil => simp
  | cons q t ih =>
      intro hnd a ha b hb heq
      obtain ⟨hq, hndt⟩ := List.nodup_cons.mp hnd
      simp only [posIn] at heq
      by_cases hqa : q = a
      · by_cases hqb : q = b
        · exact hqa.symm.trans hqb
        · rw [if_pos hqa, if_neg hqb] at heq
          omega
      · by_cases hqb : q = b
        · rw [if_neg hqa, if_pos hqb] at heq
          omega
        · rw [if_neg hqa, if_neg hqb] at heq
          have hat : a ∈ t := by
            rcases List.mem_cons.mp ha with rfl | h
            · exact absurd rfl hqa
            · exact h
          have hbt : b ∈ t := by
            rcases List.mem_cons.mp hb with rfl | h
            · exact absurd rfl hqb
            · exact h
          exact ih hndt a hat b hbt (by omega)

theorem posIn_map_range : ∀ (l : List String), l.Nodup →
    l.map (fun a => posIn a l) = List.range l.length := by
  intro l
  induction l with
  | nil => intro _; rfl
  | cons q t ih =>
      intro hnd
      obtain ⟨hq, hndt⟩ := List.nodup_cons.mp hnd
      simp only [List.map_cons, posIn, if_pos rfl, List.length_cons]
      have hcongr : t.map (fun a => if q = a then 0 else posIn a t + 1)
          = t.map (fun a => posIn a t + 1) := by
        apply List.map_congr_left
        intro a ha
        have hqa : q ≠ a := fun h => hq (h ▸ ha)
        rw [if_neg hqa]
      rw [hcongr,
        show t.map (fun a => posIn a t + 1)
            = (t.map (fun a => posIn a t)).map (fun x => x + 1) from
          (List.map_map _ _ _).symm,
        ih hndt, List.range_succ_eq_map]
      simp [Nat.succ_eq_add_one]

/-! ## Claim C2 -/

/-- C2: for every full-name person `p` and metric `m`, the rows of `p`
surviving in the cumulative output (in file order) carry exactly the
prefix sums of `p`'s non-zero daily deltas; given non-negative fetched
values the value column is non-decreasing; the days along `p`'s rows are
strictly increasing (both in the output and along the day-sorted pivot
scan that defines delta order); and every output row's day lies in the
target year. -/
theorem c2_cumulative_prefix_sum_monotone (rows : List Row) (yr : Nat → Nat) (year : Nat)
    (m p : String) (_hWF : snapWF rows yr year)
    (hNN : ∀ r ∈ rows, ∀ kv ∈ r.values, 0 ≤ kv.2) :
    (((subsetRaw rows yr year m).filter (fun s => s.person == p)).map (fun s => s.value)
        = cumNZ 0 (deltasFor (yearFiltered rows yr year) m p (sortedPivot rows yr year)))
    ∧ List.Chain' (· ≤ ·)
        (((subsetRaw rows yr year m).filter (fun s => s.person == p)).map (fun s => s.value))
    ∧ (((subsetRaw rows yr year m).filter (fun s => s.person == p)).map
        (fun s => s.day)).Pairwise (· < ·)
    ∧ (((sortedPivot rows yr year).filter (fun pr => pr.person == p)).map
        (fun pr => pr.date)).Pairwise (· < ·)
    ∧ ∀ s ∈ subsetRaw rows yr year m, yr s.day = year := by
  have h1 : ((subsetRaw rows yr year m).filter (fun s => s.person == p)).map (fun s => s.value)
      = cumNZ 0 (deltasFor (yearFiltered rows yr year) m p (sortedPivot rows yr year)) := by
    have h := cumsumFiltered_filter_map (yearFiltered rows yr year) m p
      (sortedPivot rows yr year) []
    simpa [subsetRaw, totOf] using h
  have hdnn : ∀ v ∈ deltasFor (yearFiltered rows yr year) m p (sortedPivot rows yr year),
      0 ≤ v := by
    intro v hv
    simp only [deltasFor, List.mem_map] at hv
    obtain ⟨pr, _, rfl⟩ := hv
    exact pivotVal_nonneg rows yr year p pr.date m hNN
  have h2 : List.Chain' (· ≤ ·)
      (((subsetRaw rows yr year m).filter (fun s => s.person == p)).map (fun s => s.value)) := by
    rw [h1]
    exact (cumNZ_bounds _ hdnn 0).1
  have h4le : (((sortedPivot rows yr year).filter (fun pr => pr.person == p)).map
      (fun pr => pr.date)).Pairwise (· ≤ ·) :=
    List.pairwise_map.mpr ((sortedPivot_day_pairwise rows yr year).filter _)
  have hfp_pairs : (((sortedPivot rows yr year).filter (fun pr => pr.person == p)).map
      (fun pr => (pr.person, pr.date))).Nodup :=
    (((List.filter_sublist _).map _)).nodup (nodup_sortedPivot_pairs rows yr year)
  have hcongr : ((sortedPivot rows yr year).filter (fun pr => pr.person == p)).map
        (fun pr => (pr.person, pr.date))
      = ((sortedPivot rows yr year).filter (fun pr => pr.person == p)).map
        (fun pr => (p, pr.date)) := by
    apply List.map_congr_left
    intro pr hpr
    have hpe : pr.person = p := by simpa using List.of_mem_filter hpr
    rw [hpe]
  have h4nd : (((sortedPivot rows yr year).filter (fun pr => pr.person == p)).map
      (fun pr => pr.date)).Nodup := by
    rw [hcongr] at hfp_pairs
    rw [show ((sortedPivot rows yr year).filter (fun pr => pr.person == p)).map
          (fun pr => (p, pr.date))
        = (((sortedPivot rows yr year).filter (fun pr => pr.person == p)).map
          (fun pr => pr.date)).map (fun d => (p, d)) from (List.map_map _ _ _).symm] at hfp_pairs
    exact List.Nodup.of_map _ hfp_pairs
  have h4 : (((sortedPivot rows yr year).filter (fun pr => pr.person == p)).map
      (fun pr => pr.date)).Pairwise (· < ·) :=
    (h4le.and h4nd).imp (fun hab => lt_of_le_of_ne hab.1 hab.2)
  have hsubl := cumsumFiltered_pairs_sublist (yearFiltered rows yr year) m
    (sortedPivot rows yr year) []
  have hfil := hsubl.filter (fun x => x.1 == p)
  rw [List.filter_map, List.filter_map] at hfil
  have hfil2 : (((subsetRaw rows yr year m).filter (fun s => s.person == p)).map
        (fun x => (x.person, x.day))).Sublist
      (((sortedPivot rows yr year).filter (fun pr => pr.person == p)).map
        (fun pr => (pr.person, pr.date))) := hfil
  have h3pairs := hfil2.map (fun x : String × Nat => x.2)
  rw [List.map_map, List.map_map] at h3pairs
  have h3subl : (((subsetRaw rows yr year m).filter (fun s => s.person == p)).map
        (fun s => s.day)).Sublist
      (((sortedPivot rows yr year).filter (fun pr => pr.person == p)).map
        (fun pr => pr.date)) := h3pairs
  have h3 := List.Pairwise.sublist h3subl h4
  have h5 : ∀ s ∈ subsetRaw rows yr year m, yr s.day = year := by
    intro s hs
    obtain ⟨pr, hpr, _, hdate⟩ := subsetRaw_source rows yr year m s hs
    rw [← hdate]
    exact sortedPivot_dates_in_year rows yr year pr hpr
  exact ⟨h1, h2, h3, h4, h5⟩

/-- Witness for C2 at the `[10, 0, 5]` example snapshot. -/
theorem c2_cumulative_prefix_sum_monotone_witness :
    (snapWF rows_ex (fun _ => 2023) 2023
      ∧ ∀ r ∈ rows_ex, ∀ kv ∈ r.values, 0 ≤ kv.2)
    ∧ ((((subsetRaw rows_ex (fun _ => 2023) 2023 ("Cycling")).filter
          (fun s => s.person == "Al B")).map (fun s => s.value)
        = cumNZ 0 (deltasFor (yearFiltered rows_ex (fun _ => 2023) 2023) ("Cycling") ("Al B")
            (sortedPivot rows_ex (fun _ => 2023) 2023)))
      ∧ List.Chain' (· ≤ ·)
          (((subsetRaw rows_ex (fun _ => 2023) 2023 ("Cycling")).filter
            (fun s => s.person == "Al B")).map (fun s => s.value))
      ∧ (((subsetRaw rows_ex (fun _ => 2023) 2023 ("Cycling")).filter
          (fun s => s.person == "Al B")).map (fun s => s.day)).Pairwise (· < ·)
      ∧ (((sortedPivot rows_ex (fun _ => 2023) 2023).filter
          (fun pr => pr.person == "Al B")).map (fun pr => pr.date)).Pairwise (· < ·)
      ∧ ∀ s ∈ subsetRaw rows_ex (fun _ => 2023) 2023 ("Cycling"),
          (fun _ => 2023) s.day = 2023) :=
  ⟨⟨by decide, by decide⟩,
    c2_cumulative_prefix_sum_monotone rows_ex (fun _ => 2023) 2023 ("Cycling") ("Al B")
      (by decide) (by decide)⟩

/-! ## Claim C3 -/

/-- C3: if person `p`'s fetched value for metric `m` is zero (or absent)
on every in-year row, the per-metric subset contains no row for `p`; and
in general every surviving row has a non-zero daily value at its own
(person, day) cell — zero-delta rows are dropped before cumulation. -/
theorem c3_zero_drop (rows : List Row) (yr : Nat → Nat) (year : Nat) (m p : String)
    (_hWF : snapWF rows yr year)
    (hz : ∀ r ∈ yearFiltered rows yr year, r.metric = m → (cellValue r p).getD 0 = 0) :
    (subsetRaw rows yr year m).filter (fun s => s.person == p) = []
    ∧ ∀ s ∈ subsetRaw rows yr year m,
        pivotVal (yearFiltered rows yr year) s.person s.day m ≠ 0 := by
  constructor
  · have h1 := cumsumFiltered_filter_map (yearFiltered rows yr year) m p
      (sortedPivot rows yr year) []
    have hz' : ∀ v ∈ deltasFor (yearFiltered rows yr year) m p (sortedPivot rows yr year),
        v = 0 := by
      intro v hv
      simp only [deltasFor, List.mem_map] at hv
      obtain ⟨pr, _, rfl⟩ := hv
      exact pivotVal_zero_of_all_zero (yearFiltered rows yr year) p m hz pr.date
    rw [cumNZ_nil_of_zero _ hz' (totOf [] p)] at h1
    exact List.map_eq_nil_iff.mp h1
  · intro s hs
    exact cumsumFiltered_emitted_nonzero (yearFiltered rows yr year) m
      (sortedPivot rows yr year) [] s hs

/-- Witness for C3: `Bob E` fetches only zeros for Steps, so the Steps
subset has no `Bob E` row. -/
theorem c3_zero_drop_witness :
    (snapWF rows_c3 (fun _ => 2023) 2023
      ∧ ∀ r ∈ yearFiltered rows_c3 (fun _ => 2023) 2023, r.metric = "Steps" →
          (cellValue r ("Bob E")).getD 0 = 0)
    ∧ ((subsetRaw rows_c3 (fun _ => 2023) 2023 ("Steps")).filter
          (fun s => s.person == "Bob E") = []
      ∧ ∀ s ∈ subsetRaw rows_c3 (fun _ => 2023) 2023 ("Steps"),
          pivotVal (yearFiltered rows_c3 (fun _ => 2023) 2023) s.person s.day ("Steps") ≠ 0) :=
  ⟨⟨by decide, by decide⟩,
    c3_zero_drop rows_c3 (fun _ => 2023) 2023 ("Steps") ("Bob E") (by decide) (by decide)⟩

/-! ## Claim C4 -/

/-- C4: in each metric's output file, the colour of every row is one plus
the position of its person in the first-appearance scan order of the
file (so the first person encountered has colour 1 and each new person
the next integer — the enumerated unique persons carry colours
`1, 2, ..., n`); colours are between 1 and the number of distinct
persons; and within the file two rows carry equal colours exactly when
they carry the same person, so each person's colour is stable. -/
theorem c4_color_assignment (rows : List Row) (yr : Nat → Nat) (year : Nat) (m : String) :
    (∀ r ∈ fileRows rows yr year m,
      r.color = posIn r.person (filePersons rows yr year m) + 1
      ∧ 1 ≤ r.color ∧ r.color ≤ (filePersons rows yr year m).length)
    ∧ (∀ r ∈ fileRows rows yr year m, ∀ r' ∈ fileRows rows yr year m,
        (r.person = r'.person ↔ r.color = r'.color))
    ∧ ((filePersons rows yr year m).map
        (fun q => posIn q (filePersons rows yr year m) + 1)
        = List.range' 1 (filePersons rows yr year m).length)
    ∧ (∀ r, (fileRows rows yr year m).head? = some r → r.color = 1) := by
  have hfr : fileRows rows yr year m
      = (fileBase rows yr year m).map
          (fun s => ⟨s.person, s.day, s.value, posIn s.person (filePersons rows yr year m) + 1⟩) :=
    rfl
  have hnd : (filePersons rows yr year m).Nodup := nodup_uniqueFirst _
  have hA : ∀ r ∈ fileRows rows yr year m,
      r.color = posIn r.person (filePersons rows yr year m) + 1
      ∧ 1 ≤ r.color ∧ r.color ≤ (filePersons rows yr year m).length := by
    intro r hr
    rw [hfr] at hr
    obtain ⟨s, hs, rfl⟩ := List.mem_map.mp hr
    refine ⟨rfl, ?_, ?_⟩
    · show 1 ≤ posIn s.person (filePersons rows yr year m) + 1
      omega
    · show posIn s.person (filePersons rows yr year m) + 1
        ≤ (filePersons rows yr year m).length
      have hmem : s.person ∈ (fileBase rows yr year m).map (fun s => s.person) :=
        List.mem_map_of_mem _ hs
      have := posIn_lt_length s.person (filePersons rows yr year m)
        ((mem_uniqueFirst _ _).mpr hmem)
      omega
  refine ⟨hA, ?_, ?_, ?_⟩
  · intro r hr r' hr'
    have h1 := (hA r hr).1
    have h2 := (hA r' hr').1
    constructor
    · intro hp
      rw [h1, h2, hp]
    · intro hc
      rw [h1, h2] at hc
      have hpos : posIn r.person (filePersons rows yr year m)
          = posIn r'.person (filePersons rows yr year m) := by omega
      rw [hfr] at hr hr'
      obtain ⟨s, hs, rfl⟩ := List.mem_map.mp hr
      obtain ⟨s', hs', rfl⟩ := List.mem_map.mp hr'
      exact posIn_inj (filePersons rows yr year m) hnd _
        ((mem_uniqueFirst _ _).mpr (List.mem_map_of_mem _ hs)) _
        ((mem_uniqueFirst _ _).mpr (List.mem_map_of_mem _ hs')) hpos
  · rw [show (filePersons rows yr year m).map
          (fun q => posIn q (filePersons rows yr year m) + 1)
        = ((filePersons rows yr year m).map
          (fun q => posIn q (filePersons rows yr year m))).map (fun x => x + 1) from
        (List.map_map _ _ _).symm,
      posIn_map_range _ hnd, List.range'_eq_map_range]
    apply List.map_congr_left
    intro a _
    omega
  · intro r hhead
    cases hb : fileBase rows yr year m with
    | nil =>
        rw [hfr, hb] at hhead
        cases hhead
    | cons b bs =>
        rw [hfr, hb] at hhead
        simp only [List.map_cons, List.head?_cons, Option.some.injEq] at hhead
        have hups : filePersons rows yr year m
            = b.person :: uniqueFirstAux [b.person] (bs.map (fun s => s.person)) := by
          unfold filePersons
          rw [hb, List.map_cons, uniqueFirst_cons]
        rw [← hhead]
        simp [hups, posIn]

/-! ## Claim C5 -/

/-- C5 counterexample: with full names `John Smith` and `John Doe` both
active on day 1, the Steps output file carries two distinct rows with the
same `(Person, day)` key `("John", 1)` — uniqueness fails after the
first-token truncation. -/
theorem c5_counterexample_first_token_collision :
    ((fileRows rows_c5 (fun _ => 2023) 2023 ("Steps")).map (fun r => (r.person, r.day))
      = [("John", 1), ("John", 1)])
    ∧ ¬ ((fileRows rows_c5 (fun _ => 2023) 2023 ("Steps")).map
        (fun r => (r.person, r.day))).Nodup := by
  decide

/-- C5 (amended): within each metric's output file, rows are unique per
(full person name, day) — the subset before truncation has no duplicate
`(person, day)` key — and the written file's `(Person, day)` keys are
exactly those keys with the full name replaced by its first token, so
two distinct full names sharing a first token (and only such names) can
collide on the same day. -/
theorem c5_amended_fullname_day_unique (rows : List Row) (yr : Nat → Nat) (year : Nat)
    (m : String) :
    ((subsetRaw rows yr year m).map (fun s => (s.person, s.day))).Nodup
    ∧ ((fileRows rows yr year m).map (fun r => (r.person, r.day))
        = (subsetRaw rows yr year m).map (fun s => (firstToken s.person, s.day))) := by
  constructor
  · exact List.Nodup.sublist
      (cumsumFiltered_pairs_sublist (yearFiltered rows yr year) m
        (sortedPivot rows yr year) [])
      (nodup_sortedPivot_pairs rows yr year)
  · show ((fileBase rows yr year m).map _).map _ = _
    rw [List.map_map]
    unfold fileBase
    rw [List.map_map]
    rfl

end GarminLB
